import Mathlib

/-!
Verification development for the faedor virtual-actor grain runtime.

Each definition is a shallow embedding of a function or class of the
repository (TypeScript), translated statement by statement.  Definitions
whose doc comment starts with "Modelled from the spec:" embed components
whose implementation is absent from the repository sources (only their
interface declarations or callers exist); those follow the design
document's wording instead.
-/

namespace Faedor

/-! ## Actor (src/unnamed/part_000)

The `Actor` base class holds a current state, an undo/redo history with
`past` and `future` stacks, and a list of subscriber callbacks.
`sendMessage` validates the message type and either drops the message
(with a console warning) or runs `processMessage`, which produces the new
state via Immer, pushes `(newState, inversePatches)` onto `past`, clears
`future`, and notifies every subscriber with the new state. -/

/-- A message as in the `BaseMessage` interface: a `type` string plus a
payload (the remaining fields). -/
structure Message (Payload : Type) where
  type : String
  payload : Payload
deriving DecidableEq

/-- One entry of the undo history: the state snapshot that was pushed and
the Immer inverse patches.  Inverse patches are modelled by their semantic
action (the function `applyPatches · inversePatches`); for a push made by
`processMessage` that action restores the previous state. -/
structure HistoryEntry (State : Type) where
  state : State
  inversePatches : State → State

/-- The concrete behaviour a subclass supplies: the abstract methods
`isMessageTypeValid` and `handleMessage` (the latter as the state
transformation `produceWithPatches` realises from the draft mutation). -/
structure ActorSpec (State Payload : Type) where
  isMessageTypeValid : String → Bool
  handleMessage : State → Message Payload → State

/-- The mutable fields of an `Actor` instance that `sendMessage`,
`processMessage` and the history operations touch.  Subscribers are
identified by the order-preserving list of their ids. -/
structure ActorState (State : Type) where
  state : State
  past : List (HistoryEntry State)
  future : List (HistoryEntry State)
  subscribers : List Nat

/-- A notification event: subscriber `id` was called back with the new
state. -/
abbrev NotifyEvent (State : Type) := Nat × State

/-- `Actor.processMessage`: compute the new state with
`produceWithPatches`, assign it, push `(this.state, inversePatches)` onto
`history.past`, clear `history.future`, and notify the subscribers in
order.  Returns the updated actor and the notification events it emitted
before returning. -/
def processMessage {State Payload : Type} (A : ActorSpec State Payload)
    (a : ActorState State) (m : Message Payload) :
    ActorState State × List (NotifyEvent State) :=
  let newState := A.handleMessage a.state m
  ({ state := newState
     past := a.past ++ [⟨newState, fun _ => a.state⟩]
     future := []
     subscribers := a.subscribers },
   a.subscribers.map (fun sid => (sid, newState)))

/-- `Actor.sendMessage`: if `isMessageTypeValid` rejects the message type,
only a console warning is issued and the method returns (no state change,
no events); otherwise the message is processed. -/
def sendMessage {State Payload : Type} (A : ActorSpec State Payload)
    (a : ActorState State) (m : Message Payload) :
    ActorState State × List (NotifyEvent State) :=
  if A.isMessageTypeValid m.type then processMessage A a m else (a, [])

/-- The serial per-actor turn loop: messages are taken one at a time in
FIFO order and each `sendMessage` turn runs to completion — its state
update, history push and all its subscriber notifications — before the
next message is popped.  Returns the final actor and the flat event
stream in emission order. -/
def runQueue {State Payload : Type} (A : ActorSpec State Payload) :
    ActorState State → List (Message Payload) →
    ActorState State × List (NotifyEvent State)
  | a, [] => (a, [])
  | a, m :: rest =>
    let step := sendMessage A a m
    let tail := runQueue A step.1 rest
    (tail.1, step.2 ++ tail.2)

/-- Actor state reached after fully completing the given messages in
order. -/
def stateAfter {State Payload : Type} (A : ActorSpec State Payload)
    (a : ActorState State) (msgs : List (Message Payload)) : ActorState State :=
  msgs.foldl (fun s m => (sendMessage A s m).1) a

/-- Specification of turn `k`'s complete event block, computed
independently of the loop: the events `sendMessage` emits when run on the
state left by fully completing the first `k` messages. -/
def turnEvents {State Payload : Type} (A : ActorSpec State Payload)
    (a : ActorState State) (msgs : List (Message Payload)) (k : Nat) :
    List (NotifyEvent State) :=
  match (msgs.drop k).head? with
  | none => []
  | some m => (sendMessage A (stateAfter A a (msgs.take k)) m).2

/-- A concrete actor used for counterexamples: every message type is
valid and each message increments a counter state. -/
def counterSpec : ActorSpec Nat Unit :=
  { isMessageTypeValid := fun _ => true
    handleMessage := fun s _ => s + 1 }

/-- A concrete actor that accepts only the message type "inc". -/
def strictSpec : ActorSpec Nat Unit :=
  { isMessageTypeValid := fun t => t == "inc"
    handleMessage := fun s _ => s + 1 }

/-- A fresh actor instance: initial state, empty history, one
subscriber. -/
def actorInit : ActorState Nat :=
  { state := 0, past := [], future := [], subscribers := [7] }

/-! ## CancellationToken (src/packages/orleans/src/lib/utils.ts)

`cancel()` sets `isCanceled = true` and then invokes every callback
currently in `onCancelCallbacks` (in registration order).
`isCancellationRequested()` returns the flag.  `register(callback)`
appends to the list; there is no unregistration and no reset. -/

/-- The private fields of a `CancellationToken`.  Callbacks are identified
by `Nat` ids in registration order. -/
structure TokenState where
  isCanceled : Bool
  onCancelCallbacks : List Nat
deriving DecidableEq

/-- A freshly constructed token: not canceled, no callbacks. -/
def tokenInit : TokenState := { isCanceled := false, onCancelCallbacks := [] }

/-- One public operation on a token. -/
inductive TokenOp
  | register (id : Nat)
  | cancel
deriving DecidableEq

/-- One operation's effect: `register` appends the callback; `cancel` sets
the flag and invokes every currently registered callback in order (the
returned list is the invocation events). -/
def tokenStep : TokenState → TokenOp → TokenState × List Nat
  | s, .register id => ({ s with onCancelCallbacks := s.onCancelCallbacks ++ [id] }, [])
  | s, .cancel => ({ s with isCanceled := true }, s.onCancelCallbacks)

/-- Run a sequence of token operations, collecting all callback
invocations in order. -/
def tokenRun : TokenState → List TokenOp → TokenState × List Nat
  | s, [] => (s, [])
  | s, op :: rest =>
    let step := tokenStep s op
    let tail := tokenRun step.1 rest
    (tail.1, step.2 ++ tail.2)

/-! ## Silo and GrainFactory
(src/packages/orleans/src/lib/silo/silo.ts, src/unnamed/part_002)

`Silo.activateGrain(grain)` does `activatedGrains.set(grain.id, grain)` —
an unconditional JS `Map.set`.  `GrainFactory.getGrain(grainClass, args)`
constructs a brand new grain instance with `new grainClass(args)`, wraps
it in a fresh proxy, calls `silo.activateGrain(proxy)` and returns the
proxy.  There is no lookup of an existing activation anywhere. -/

/-- A grain instance/proxy.  `id` is the grain identity used as the map
key; `instanceTag` models JS object identity — each `new` expression
yields a distinct tag. -/
structure GrainInstance where
  id : String
  instanceTag : Nat
deriving DecidableEq

/-- Association-list lookup with JS `Map.get` semantics (first — and
only — entry with the key). -/
def assocLookup {α : Type} (m : List (String × α)) (k : String) : Option α :=
  (m.find? (fun p => p.1 == k)).map (·.2)

/-- JS `Map.set` semantics on an insertion-ordered association list:
replace the value in place if the key exists, otherwise append. -/
def mapSet {α : Type} (m : List (String × α)) (k : String) (v : α) :
    List (String × α) :=
  if m.any (fun p => p.1 == k) then
    m.map (fun p => if p.1 == k then (k, v) else p)
  else m ++ [(k, v)]

/-- The silo's activation table (the `activatedGrains` private map). -/
structure SiloState where
  activatedGrains : List (String × GrainInstance)
deriving DecidableEq

/-- `Silo.activateGrain`: `this.activatedGrains.set(grain.id, grain)` —
unconditionally stores the given instance under its id. -/
def Silo.activateGrain (s : SiloState) (g : GrainInstance) : SiloState :=
  { activatedGrains := mapSet s.activatedGrains g.id g }

/-- `Silo.deactivateGrain`: removes the entry for the id. -/
def Silo.deactivateGrain (s : SiloState) (gid : String) : SiloState :=
  { activatedGrains := s.activatedGrains.filter (fun p => ¬ p.1 == gid) }

/-- `GrainFactory.getGrain`: always constructs a new grain instance and
proxy (`freshTag` models the fresh JS allocation), activates it in the
silo, and returns it.  No existing activation is consulted. -/
def GrainFactory.getGrain (s : SiloState) (gid : String) (freshTag : Nat) :
    GrainInstance × SiloState :=
  let proxy : GrainInstance := ⟨gid, freshTag⟩
  (proxy, Silo.activateGrain s proxy)

/-! ## Persistent state records and the storage-provider contract -/

/-- Modelled from the spec: the storage-provider implementation is absent
from the sources — only the `IGrainStorage`/`IStorage` declarations
(src/packages/orleans/src/lib/grains/storage.ts) and the `IGrainState`
record shape with its `version`, `state` and `recordExists` fields
(src/unnamed/part_001) exist.  A `PersistentStateRecord` holds the
current value, the etag (the `version` field) and the existence flag. -/
structure PersistentStateRecord (V : Type) where
  value : Option V
  etag : Nat
  recordExists : Bool
deriving DecidableEq

/-- Optimistic-concurrency failure of a write or clear. -/
inductive StorageErr
  | conflict
deriving DecidableEq

/-- Modelled from the spec: `readState(stateName, identity)` returns
`{ value, etag, exists }`. -/
def readStateModel {V : Type} (r : PersistentStateRecord V) :
    Option V × Nat × Bool :=
  (r.value, r.etag, r.recordExists)

/-- Modelled from the spec: `writeState(stateName, identity, value, etag)`
returns the new etag, or a Conflict error when the presented etag is not
the record's current etag, in which case the stored record is untouched.
A successful write strictly increases the etag. -/
def writeStateModel {V : Type} (r : PersistentStateRecord V) (v : V)
    (tag : Nat) : PersistentStateRecord V × Except StorageErr Nat :=
  if tag = r.etag then
    ({ value := some v, etag := r.etag + 1, recordExists := true },
     Except.ok (r.etag + 1))
  else (r, Except.error StorageErr.conflict)

/-- Modelled from the spec: `clearState(stateName, identity, etag)`
succeeds only with the current etag (leaving `exists = false`), otherwise
returns Conflict and leaves the record untouched. -/
def clearStateModel {V : Type} (r : PersistentStateRecord V) (tag : Nat) :
    PersistentStateRecord V × Except StorageErr Unit :=
  if tag = r.etag then
    ({ value := none, etag := r.etag + 1, recordExists := false },
     Except.ok ())
  else (r, Except.error StorageErr.conflict)

/-! ## LifecycleObservable

Only the `ILifecycleObservable`/`ILifecycleObserver` interfaces exist in
the sources (src/unnamed/part_006); the start/stop driver is modelled
from the spec (§4.4). -/

/-- A subscribed lifecycle observer: reporting name, stage number, and
the abstract outcomes of its `onStart`/`onStop` handlers (`true` means
the handler's promise rejects). -/
structure LObserver where
  id : Nat
  observerName : String
  stage : Nat
  startFails : Bool
  stopFails : Bool
deriving DecidableEq

/-- `subscribe(observerName, stage, observer)`: registers the observer
(the returned disposable handle is not modelled; no claim unsubscribes). -/
def subscribe (regs : List LObserver) (o : LObserver) : List LObserver :=
  regs ++ [o]

/-- Insert an observer behind every observer of an earlier-or-equal
stage (a stable insertion). -/
def insertByStage (o : LObserver) : List LObserver → List LObserver
  | [] => [o]
  | x :: xs => if o.stage < x.stage then o :: x :: xs else x :: insertByStage o xs

/-- Stable sort of the registered observers by ascending stage;
observers of equal stage keep their registration order. -/
def sortByStage (regs : List LObserver) : List LObserver :=
  regs.foldl (fun acc o => insertByStage o acc) []

/-- Modelled from the spec: the Start driver walks the observers in
ascending stage order, awaiting each one; the first failing observer
aborts the whole startup and its failure is propagated (no later
observer runs).  Returns the invoked observers in order and the failure,
if any. -/
def startLoop : List LObserver → List LObserver × Option LObserver
  | [] => ([], none)
  | o :: rest =>
    if o.startFails then ([o], some o)
    else
      let tail := startLoop rest
      (o :: tail.1, tail.2)

/-- Modelled from the spec: the Stop driver walks the observers it is
given in order, invoking every one; failures never abort teardown and
are aggregated into one reported list. -/
def stopLoop : List LObserver → List LObserver × List LObserver
  | [] => ([], [])
  | o :: rest =>
    let tail := stopLoop rest
    (o :: tail.1, (if o.stopFails then [o] else []) ++ tail.2)

/-- Modelled from the spec: `start()` invokes all observers in ascending
stage order. -/
def lifecycleStart (regs : List LObserver) : List LObserver × Option LObserver :=
  startLoop (sortByStage regs)

/-- Modelled from the spec: `stop()` invokes observers in descending
stage order, aggregating the failures. -/
def lifecycleStop (regs : List LObserver) : List LObserver × List LObserver :=
  stopLoop (sortByStage regs).reverse

/-! ## GrainWithState and lifecycle stages
(src/unnamed/part_003; stage order from the spec §3/§6) -/

/-- The well-known lifecycle stages.  The enumeration module itself is
absent from the sources; the ascending order First, SetupState, Activate,
Last is taken from the spec. -/
inductive GrainLifecycleStage
  | first
  | setupState
  | activate
  | last
deriving DecidableEq

/-- The stage number of a well-known stage (ascending). -/
def GrainLifecycleStage.toNat : GrainLifecycleStage → Nat
  | .first => 0
  | .setupState => 1
  | .activate => 2
  | .last => 3

/-- The lifecycle observer that `GrainWithState.participate` registers:
its `onStart` handler is `onSetupState`, which resolves the storage and
performs `readState`. -/
def setupStateHook (className : String) (obsId : Nat) : LObserver :=
  { id := obsId
    observerName := className
    stage := GrainLifecycleStage.setupState.toNat
    startFails := false
    stopFails := false }

/-- `GrainWithState.participate(lifecycle)`: calls
`lifecycle.subscribe(this.constructor.name, GrainLifecycleStage.SetupState,
this.onSetupState.bind(this))`. -/
def GrainWithState.participate (regs : List LObserver) (className : String)
    (obsId : Nat) : List LObserver :=
  subscribe regs (setupStateHook className obsId)

/-- One observable event of an activation: a Start-stage observer
invocation, or a turn (message delivery / timer tick) executing. -/
inductive ActivationEvent
  | startObs (o : LObserver)
  | turn (k : Nat)
deriving DecidableEq

/-- Whether the event is a turn. -/
def ActivationEvent.isTurn : ActivationEvent → Bool
  | .startObs _ => false
  | .turn _ => true

/-- Modelled from the spec: the ActivationManager (absent from the
sources) runs the Start stages of the lifecycle to completion before any
queued turn is dispatched; if a Start observer fails the activation is
discarded and no turn ever runs. -/
def activationRun (regs : List LObserver) (turns : List Nat) :
    List ActivationEvent :=
  match lifecycleStart regs with
  | (tr, none) => tr.map ActivationEvent.startObs ++ turns.map ActivationEvent.turn
  | (tr, some _) => tr.map ActivationEvent.startObs

/-! ## Collectible grain context
(interface in src/packages/orleans/src/lib/grains/grain_context.ts;
`Grain.delayDeactivation` in src/unnamed/part_001 forwards to it) -/

/-- Modelled from the spec: the keep-alive state of
`ICollectibleGrainContext` — the implementation behind
`delayDeactivation` is absent from the sources.  `none` means no
keep-alive override is in effect. -/
structure CollectibleContext where
  keepAliveUntil : Option Int
deriving DecidableEq

/-- Modelled from the spec: `delayDeactivation(identity, duration)` sets
keep-alive-until = now + duration, always overwriting the prior value; a
non-positive duration immediately clears the override. -/
def delayDeactivation (c : CollectibleContext) (now duration : Int) :
    CollectibleContext :=
  if duration ≤ 0 then { keepAliveUntil := none }
  else { keepAliveUntil := some (now + duration) }

/-- Modelled from the spec: the collection sweep's keep-alive check —
`now` must be past the keep-alive-until timestamp; with no override the
check never blocks collection (normal policy applies). -/
def pastKeepAlive (c : CollectibleContext) (now : Int) : Bool :=
  match c.keepAliveUntil with
  | none => true
  | some t => decide (t < now)

/-! ## PersistentStateFactory.create
(src/packages/orleans/src/lib/grains/persistent_state.ts) -/

/-- The `storageName` field of `IPersistentStateConfiguration`, typed
`string | None` with the ts-results `None` sentinel; `IPersistentStateAttribute`
stores `storageName ?? None`, so the "no name configured" value is the
`None` object. -/
inductive StorageNameCfg
  | configured (s : String)
  | noneMarker
deriving DecidableEq

/-- JS truthiness of a `string | None` value: a string is truthy unless
empty; the ts-results `None` sentinel is an object and therefore truthy. -/
def StorageNameCfg.truthy : StorageNameCfg → Bool
  | .configured s => !(s == "")
  | .noneMarker => true

/-- The grain activation's service container as `create` uses it: the
named `IGrainStorage` registrations (providers are identified by `Nat`)
and the unnamed default registration.  `getServiceByName` is modelled
from its declaration (returns the provider registered under the name, or
null): a string key is looked up in the name map; the `None` sentinel is
not a string and matches no registration. -/
structure ActivationServices where
  byName : List (String × Nat)
  defaultStorage : Option Nat
deriving DecidableEq

/-- `activationServices.getServiceByName<IGrainStorage>(key)`. -/
def getServiceByName (svc : ActivationServices) : StorageNameCfg → Option Nat
  | .configured s => assocLookup svc.byName s
  | .noneMarker => none

/-- `activationServices.getService<IGrainStorage>()`: the default
provider, if registered. -/
def getService (svc : ActivationServices) : Option Nat :=
  svc.defaultStorage

/-- The `IPersistentStateConfiguration` passed to `create`. -/
structure PersistentStateConfig where
  stateName : String
  storageName : StorageNameCfg
deriving DecidableEq

/-- The missing-provider error thrown by `create`. -/
inductive CreateError
  | missingProvider
deriving DecidableEq

/-- The `PersistentStateBridge` value `create` returns on success: the
full state name and the resolved storage provider. -/
structure PersistentStateBridge where
  fullStateName : String
  provider : Nat
deriving DecidableEq

/-- `PersistentStateFactory.create`: resolves
`config.storageName ? getServiceByName(config.storageName) : getService()`,
throws the missing-provider error when the resolution yields nothing, and
otherwise constructs the bridge (which then subscribes itself to the
activation's lifecycle). -/
def PersistentStateFactory.create (svc : ActivationServices)
    (cfg : PersistentStateConfig) : Except CreateError PersistentStateBridge :=
  let storageProvider : Option Nat :=
    if cfg.storageName.truthy then getServiceByName svc cfg.storageName
    else getService svc
  match storageProvider with
  | none => Except.error CreateError.missingProvider
  | some p => Except.ok { fullStateName := cfg.stateName, provider := p }

/-- Sample observer registrations used by concrete witnesses: a stage-2
observer registered before a stage-1 observer, none failing. -/
def sampleObservers : List LObserver :=
  [⟨0, "timers", 2, false, false⟩, ⟨1, "state", 1, false, false⟩]

/-! ## Theorems -/

theorem stateAfter_cons {State Payload : Type} (A : ActorSpec State Payload)
    (a : ActorState State) (m : Message Payload) (rest : List (Message Payload)) :
    stateAfter A a (m :: rest) = stateAfter A (sendMessage A a m).1 rest := rfl

theorem turnEvents_cons {State Payload : Type} (A : ActorSpec State Payload)
    (a : ActorState State) (m : Message Payload) (rest : List (Message Payload))
    (k : Nat) :
    turnEvents A a (m :: rest) (k + 1) = turnEvents A (sendMessage A a m).1 rest k := by
  simp [turnEvents, List.drop_succ_cons, List.take_succ_cons, stateAfter_cons]

/-- C3: on one activation, the serial loop processes enqueued messages
strictly in FIFO order: the final state is the sequential composition of
whole turns, and the emitted event stream is exactly the concatenation of
each turn's complete event block (each block computed from the state left
by fully completing all earlier turns), so turn `k`'s effects — its state
update, history push and every notification it performs before returning —
occur entirely before turn `k + 1` begins and turns never interleave. -/
theorem runQueue_turns_fifo_no_interleaving {State Payload : Type}
    (A : ActorSpec State Payload) (a : ActorState State)
    (msgs : List (Message Payload)) :
    (runQueue A a msgs).1 = stateAfter A a msgs ∧
    (runQueue A a msgs).2 =
      ((List.range msgs.length).map (turnEvents A a msgs)).flatten := by
  induction msgs generalizing a with
  | nil => simp [runQueue, stateAfter]
  | cons m rest ih =>
    obtain ⟨ih1, ih2⟩ := ih (sendMessage A a m).1
    constructor
    · simpa [runQueue, stateAfter_cons] using ih1
    · have hcomp : turnEvents A a (m :: rest) ∘ Nat.succ =
          turnEvents A (sendMessage A a m).1 rest :=
        funext fun k => turnEvents_cons A a m rest k
      have h0 : turnEvents A a (m :: rest) 0 = (sendMessage A a m).2 := by
        simp [turnEvents, stateAfter]
      simp only [runQueue, List.length_cons, List.range_succ_eq_map,
        List.map_cons, List.map_map, List.flatten_cons]
      rw [h0, hcomp, ih2]

theorem runQueue_past_length_aux {State Payload : Type}
    (A : ActorSpec State Payload) (a : ActorState State)
    (msgs : List (Message Payload)) :
    ((runQueue A a msgs).1).past.length =
      a.past.length +
        (msgs.filter (fun m => A.isMessageTypeValid m.type)).length := by
  induction msgs generalizing a with
  | nil => simp [runQueue]
  | cons m rest ih =>
    have hrq : (runQueue A a (m :: rest)).1 = (runQueue A (sendMessage A a m).1 rest).1 := rfl
    rw [hrq, ih]
    by_cases h : A.isMessageTypeValid m.type
    · simp [sendMessage, processMessage, h, List.filter_cons]
      omega
    · simp [sendMessage, h, List.filter_cons]

/-- C8 (amended): the undo history's `past` stack is not bounded — its
depth after a run equals the prior depth plus the number of processed
(valid-typed) messages; nothing ever trims it. -/
theorem history_depth_equals_processed_count {State Payload : Type}
    (A : ActorSpec State Payload) (a : ActorState State)
    (msgs : List (Message Payload)) :
    ((runQueue A a msgs).1).past.length =
      a.past.length +
        (msgs.filter (fun m => A.isMessageTypeValid m.type)).length :=
  runQueue_past_length_aux A a msgs

/-- C8 counterexample: for the concrete counter actor no fixed bound on
the retained history depth exists — for any candidate bound `B`,
processing `B + 1` messages drives `past` to depth `B + 1`. -/
theorem history_depth_unbounded_counterexample :
    ¬ ∃ B : Nat, ∀ msgs : List (Message Unit),
        ((runQueue counterSpec actorInit msgs).1).past.length ≤ B := by
  rintro ⟨B, h⟩
  have hB := h (List.replicate (B + 1) ⟨"inc", ()⟩)
  rw [runQueue_past_length_aux] at hB
  simp [counterSpec, actorInit] at hB

/-- C9: a message whose type the actor's `isMessageTypeValid` predicate
rejects leaves `sendMessage` a complete no-op at the public interface:
the state, the undo/redo history and the subscriber list are unchanged
and no subscriber callback is invoked (only a console warning is
printed); no error is raised. -/
theorem sendMessage_invalid_type_noop {State Payload : Type}
    (A : ActorSpec State Payload) (a : ActorState State) (m : Message Payload)
    (h : A.isMessageTypeValid m.type = false) :
    sendMessage A a m = (a, []) := by
  simp [sendMessage, h]

/-- Witness for C9 at a concrete rejected message. -/
theorem sendMessage_invalid_type_noop_witness :
    strictSpec.isMessageTypeValid "bogus" = false ∧
    sendMessage strictSpec actorInit ⟨"bogus", ()⟩ = (actorInit, []) :=
  ⟨by decide,
   sendMessage_invalid_type_noop strictSpec actorInit ⟨"bogus", ()⟩ (by decide)⟩

theorem tokenRun_append (s : TokenState) (l1 l2 : List TokenOp) :
    tokenRun s (l1 ++ l2) =
      ((tokenRun (tokenRun s l1).1 l2).1,
       (tokenRun s l1).2 ++ (tokenRun (tokenRun s l1).1 l2).2) := by
  induction l1 generalizing s with
  | nil => simp [tokenRun]
  | cons op rest ih =>
    simp [tokenRun, ih]

theorem tokenRun_registers (s : TokenState) (ids : List Nat) :
    tokenRun s (ids.map TokenOp.register) =
      ({ s with onCancelCallbacks := s.onCancelCallbacks ++ ids }, []) := by
  induction ids generalizing s with
  | nil => simp [tokenRun]
  | cons i rest ih =>
    simp [tokenRun, tokenStep, ih]

theorem tokenRun_canceled_persists (s : TokenState) (ops : List TokenOp)
    (h : s.isCanceled = true) : (tokenRun s ops).1.isCanceled = true := by
  induction ops generalizing s with
  | nil => simpa [tokenRun]
  | cons op rest ih =>
    cases op with
    | register i => exact ih _ (by simpa [tokenStep])
    | cancel => exact ih _ (by simp [tokenStep])

/-- C10 (amended): for a token on which `cancel()` is called exactly once,
`isCancellationRequested()` is `false` before the cancellation and `true`
at every later point, and the cancellation invokes exactly the callbacks
registered before it, in registration order; callbacks registered after
the token was cancelled are not invoked by that cancellation (they are
invoked only if `cancel()` is called again). -/
theorem cancellationToken_single_cancel_behavior (pre post : List Nat)
    (more : List TokenOp) :
    (tokenRun tokenInit (pre.map TokenOp.register)).1.isCanceled = false ∧
    (tokenRun tokenInit
        (pre.map TokenOp.register ++ TokenOp.cancel :: post.map TokenOp.register)).2
      = pre ∧
    (tokenRun (tokenRun tokenInit
        (pre.map TokenOp.register ++ TokenOp.cancel :: post.map TokenOp.register)).1
        more).1.isCanceled = true := by
  have hrun : tokenRun tokenInit
      (pre.map TokenOp.register ++ TokenOp.cancel :: post.map TokenOp.register)
      = ({ isCanceled := true, onCancelCallbacks := pre ++ post }, pre) := by
    rw [tokenRun_append, tokenRun_registers]
    simp [tokenRun, tokenStep, tokenInit, tokenRun_registers]
  refine ⟨by simp [tokenRun_registers, tokenInit], by simp [hrun], ?_⟩
  rw [hrun]
  exact tokenRun_canceled_persists _ more rfl

/-- C10 counterexample: after `cancel()` the token reports being
cancelled, yet a callback registered at that point is still invoked when
`cancel()` is called a second time — refuting "a callback registered
after the token was already cancelled is never invoked". -/
theorem cancel_twice_invokes_late_callback :
    (tokenRun tokenInit [TokenOp.cancel]).1.isCanceled = true ∧
    (0 : Nat) ∈ (tokenRun tokenInit
        [TokenOp.cancel, TokenOp.register 0, TokenOp.cancel]).2 := by
  decide

theorem assocLookup_mapSet_self {α : Type} (m : List (String × α)) (k : String)
    (v : α) : assocLookup (mapSet m k v) k = some v := by
  unfold mapSet
  by_cases h : m.any (fun p => p.1 == k)
  · simp only [h, if_true]
    induction m with
    | nil => simp at h
    | cons hd tl ih =>
      by_cases hk : hd.1 == k
      · simp [assocLookup, List.find?, hk]
      · have htl : tl.any (fun p => p.1 == k) := by
          simp only [List.any_cons, hk, Bool.false_or] at h
          exact h
        have := ih htl
        simpa [assocLookup, List.find?, hk] using this
  · simp only [h, if_false]
    induction m with
    | nil => simp [assocLookup]
    | cons hd tl ih =>
      have hk : (hd.1 == k) = false := by
        by_contra hc
        simp only [List.any_cons] at h
        simp_all
      have htl : ¬ tl.any (fun p => p.1 == k) := by
        simp only [List.any_cons, hk, Bool.false_or] at h
        exact fun hc => h hc
      have := ih htl
      simpa [assocLookup, List.find?, hk] using this

/-- C1 (amended): `getGrain` never returns an existing activation —
every call constructs a fresh grain instance and proxy (distinct object
identity) and `activateGrain` unconditionally overwrites the identity's
entry in the activation table, so two callers for the same identity
observe two distinct records and the table retains only the most recent
one. -/
theorem getGrain_always_creates_fresh_record (s : SiloState) (gid : String)
    (t1 t2 : Nat) (hne : t1 ≠ t2) :
    (GrainFactory.getGrain s gid t1).1 ≠
      (GrainFactory.getGrain (GrainFactory.getGrain s gid t1).2 gid t2).1 ∧
    assocLookup
        (GrainFactory.getGrain
          (GrainFactory.getGrain s gid t1).2 gid t2).2.activatedGrains gid
      = some ⟨gid, t2⟩ := by
  constructor
  · simp only [GrainFactory.getGrain]
    intro h
    exact hne (congrArg GrainInstance.instanceTag h)
  · simp only [GrainFactory.getGrain, Silo.activateGrain]
    exact assocLookup_mapSet_self _ gid (GrainInstance.mk gid t2)

/-- Witness for C1's amended statement at a concrete pair of calls. -/
theorem getGrain_always_creates_fresh_record_witness :
    (0 : Nat) ≠ 1 ∧
    (GrainFactory.getGrain (SiloState.mk []) "a" 0).1 ≠
      (GrainFactory.getGrain (GrainFactory.getGrain (SiloState.mk []) "a" 0).2 "a" 1).1 :=
  ⟨by decide,
   (getGrain_always_creates_fresh_record (SiloState.mk []) "a" 0 1 (by decide)).1⟩

/-- C1 counterexample: with an Active record for identity "a" already in
the table, a second `getGrain`/`activateGrain` for "a" does not return
the existing record — it returns a distinct fresh record and the table no
longer holds the first one. -/
theorem getGrain_duplicate_activation_counterexample :
    (GrainFactory.getGrain (SiloState.mk []) "a" 0).1 ≠
      (GrainFactory.getGrain (GrainFactory.getGrain (SiloState.mk []) "a" 0).2 "a" 1).1 ∧
    assocLookup
        (GrainFactory.getGrain
          (GrainFactory.getGrain (SiloState.mk []) "a" 0).2 "a" 1).2.activatedGrains "a"
      ≠ some (GrainFactory.getGrain (SiloState.mk []) "a" 0).1 := by
  decide

/-- C2: a successful `writeState` strictly increases the record's
etag/version (returning the new etag), and a `writeState` or `clearState`
presenting an etag other than the record's current etag is rejected with
a Conflict error, leaving the stored record completely untouched — a
stale write never silently overwrites the stored value. -/
theorem writeState_etag_monotone_and_conflict {V : Type}
    (r : PersistentStateRecord V) (v : V) (tag : Nat) :
    (∀ newTag, (writeStateModel r v tag).2 = Except.ok newTag →
      r.etag < (writeStateModel r v tag).1.etag ∧ newTag = r.etag + 1) ∧
    (tag = r.etag →
      (writeStateModel r v tag).2 = Except.ok (r.etag + 1) ∧
      (writeStateModel r v tag).1.etag = r.etag + 1 ∧
      (writeStateModel r v tag).1.value = some v) ∧
    (tag ≠ r.etag →
      writeStateModel r v tag = (r, Except.error StorageErr.conflict) ∧
      clearStateModel r tag = (r, Except.error StorageErr.conflict)) := by
  by_cases h : tag = r.etag
  · refine ⟨?_, fun _ => ?_, fun hne => absurd h hne⟩
    · intro newTag hok
      simp [writeStateModel, h] at hok
      constructor
      · simp [writeStateModel, h]
      · omega
    · simp [writeStateModel, h]
  · refine ⟨?_, fun he => absurd he h, fun _ => ?_⟩
    · intro newTag hok
      simp [writeStateModel, h] at hok
    · simp [writeStateModel, clearStateModel, h]

/-- Witness for C2: a stale-etag write against a concrete record is
rejected with Conflict and leaves the record unchanged. -/
theorem writeState_etag_monotone_and_conflict_witness :
    (3 : Nat) ≠ (PersistentStateRecord.mk (some 5) 2 true : PersistentStateRecord Nat).etag ∧
    writeStateModel (PersistentStateRecord.mk (some 5) 2 true : PersistentStateRecord Nat) 9 3
      = (PersistentStateRecord.mk (some 5) 2 true, Except.error StorageErr.conflict) :=
  ⟨by decide,
   ((writeState_etag_monotone_and_conflict
      (PersistentStateRecord.mk (some 5) 2 true : PersistentStateRecord Nat) 9 3).2.2
      (by decide)).1⟩

/-- C6: `delayDeactivation` sets keep-alive-until to now + duration,
always overwriting any prior value (the result does not depend on the
previous keep-alive state, so repeated calls with the same duration are
idempotent and never cumulative); a non-positive duration immediately
clears the override, so the keep-alive check no longer blocks collection
and the activation is again eligible under the normal policy. -/
theorem delayDeactivation_overwrite_idempotent_clear
    (c c2 : CollectibleContext) (now d d2 : Int) :
    (0 < d →
      delayDeactivation c now d = { keepAliveUntil := some (now + d) }) ∧
    delayDeactivation c now d = delayDeactivation c2 now d ∧
    delayDeactivation (delayDeactivation c now d2) now d
      = delayDeactivation c now d ∧
    (d ≤ 0 →
      (delayDeactivation c now d).keepAliveUntil = none ∧
      ∀ t : Int, pastKeepAlive (delayDeactivation c now d) t = true) := by
  by_cases h : d ≤ 0
  · refine ⟨fun hd => absurd h (by omega), ?_, ?_, fun _ => ?_⟩
    · simp [delayDeactivation, h]
    · simp [delayDeactivation, h]
    · simp [delayDeactivation, pastKeepAlive, h]
  · refine ⟨fun _ => ?_, ?_, ?_, fun hd => absurd hd h⟩
    · simp [delayDeactivation, h]
    · simp [delayDeactivation, h]
    · simp [delayDeactivation, h]

/-- Witness for C6 at concrete values. -/
theorem delayDeactivation_overwrite_idempotent_clear_witness :
    (0 : Int) < 5 ∧
    delayDeactivation (CollectibleContext.mk (some 3)) 100 5
      = { keepAliveUntil := some 105 } :=
  ⟨by decide,
   (delayDeactivation_overwrite_idempotent_clear
      (CollectibleContext.mk (some 3)) (CollectibleContext.mk none) 100 5 9).1
      (by decide)⟩

/-- C7: evaluation of `PersistentStateFactory.create` at the failing
input.  With no storage name configured — the config's `storageName`
holds the ts-results `None` sentinel — and a default storage provider
registered, `create` still throws the missing-provider error: the `None`
object is truthy, so resolution goes through `getServiceByName` with a
non-string key and never falls back to `getService()`, although the
claim (and the package's own documented default-provider fallback) says
creation succeeds whenever a default provider is resolvable. -/
theorem create_fails_despite_default_provider :
    getService (ActivationServices.mk [] (some 0)) = some 0 ∧
    PersistentStateFactory.create (ActivationServices.mk [] (some 0))
        (PersistentStateConfig.mk "profile" StorageNameCfg.noneMarker)
      = Except.error CreateError.missingProvider :=
  ⟨rfl, rfl⟩

theorem mem_insertByStage (a o : LObserver) (l : List LObserver) :
    a ∈ insertByStage o l ↔ a = o ∨ a ∈ l := by
  induction l with
  | nil => simp [insertByStage]
  | cons x xs ih =>
    by_cases h : o.stage < x.stage
    · simp [insertByStage, h]
    · simp only [insertByStage, h, if_false, List.mem_cons, ih]
      tauto

theorem pairwise_insertByStage (o : LObserver) (l : List LObserver)
    (h : List.Pairwise (fun x y : LObserver => x.stage ≤ y.stage) l) :
    List.Pairwise (fun x y : LObserver => x.stage ≤ y.stage)
      (insertByStage o l) := by
  induction l with
  | nil => simp [insertByStage]
  | cons x xs ih =>
    rcases List.pairwise_cons.mp h with ⟨hx, hxs⟩
    by_cases hlt : o.stage < x.stage
    · simp only [insertByStage, hlt, if_true]
      refine List.pairwise_cons.mpr ⟨?_, h⟩
      intro b hb
      rcases List.mem_cons.mp hb with hb | hb
      · subst hb
        omega
      · have := hx b hb
        omega
    · simp only [insertByStage, hlt, if_false]
      refine List.pairwise_cons.mpr ⟨?_, ih hxs⟩
      intro b hb
      rcases (mem_insertByStage b o xs).mp hb with hb | hb
      · subst hb
        omega
      · exact hx b hb

theorem pairwise_foldl_insert (regs acc : List LObserver)
    (h : List.Pairwise (fun x y : LObserver => x.stage ≤ y.stage) acc) :
    List.Pairwise (fun x y : LObserver => x.stage ≤ y.stage)
      (regs.foldl (fun acc o => insertByStage o acc) acc) := by
  induction regs generalizing acc with
  | nil => simpa
  | cons r rest ih =>
    exact ih (insertByStage r acc) (pairwise_insertByStage r acc h)

theorem sortByStage_pairwise (regs : List LObserver) :
    List.Pairwise (fun x y : LObserver => x.stage ≤ y.stage)
      (sortByStage regs) :=
  pairwise_foldl_insert regs [] (by simp)

theorem mem_foldl_insert (a : LObserver) (regs acc : List LObserver) :
    a ∈ regs.foldl (fun acc o => insertByStage o acc) acc ↔
      a ∈ acc ∨ a ∈ regs := by
  induction regs generalizing acc with
  | nil => simp
  | cons r rest ih =>
    simp only [List.foldl_cons, ih, mem_insertByStage, List.mem_cons]
    tauto

theorem mem_sortByStage (a : LObserver) (regs : List LObserver) :
    a ∈ sortByStage regs ↔ a ∈ regs := by
  simp [sortByStage, mem_foldl_insert]

theorem startLoop_all_ok (l : List LObserver)
    (h : ∀ o ∈ l, o.startFails = false) : startLoop l = (l, none) := by
  induction l with
  | nil => rfl
  | cons o rest ih =>
    have ho : o.startFails = false := h o (List.mem_cons_self o rest)
    have hrest := ih (fun x hx => h x (List.mem_cons_of_mem o hx))
    simp [startLoop, ho, hrest]

theorem startLoop_err_none_iff (l : List LObserver) :
    (startLoop l).2 = none ↔ ∀ o ∈ l, o.startFails = false := by
  induction l with
  | nil => simp [startLoop]
  | cons o rest ih =>
    by_cases ho : o.startFails
    · simp [startLoop, ho]
    · simp [startLoop, ho, ih]

theorem startLoop_trace_prefix (l : List LObserver) :
    ∃ n, (startLoop l).1 = l.take n := by
  induction l with
  | nil => exact ⟨0, rfl⟩
  | cons o rest ih =>
    by_cases ho : o.startFails
    · exact ⟨1, by simp [startLoop, ho]⟩
    · obtain ⟨n, hn⟩ := ih
      exact ⟨n + 1, by simp [startLoop, ho, hn]⟩

theorem startLoop_failure_decomp (l : List LObserver) (f : LObserver)
    (h : (startLoop l).2 = some f) :
    f.startFails = true ∧
    ∃ pre rest, l = pre ++ f :: rest ∧ (∀ o ∈ pre, o.startFails = false) ∧
      (startLoop l).1 = pre ++ [f] := by
  induction l with
  | nil => simp [startLoop] at h
  | cons o tail ih =>
    by_cases ho : o.startFails
    · simp only [startLoop, ho, if_true] at h ⊢
      obtain rfl : o = f := by simpa using h
      exact ⟨ho, [], tail, rfl, by simp, rfl⟩
    · simp only [startLoop, ho, if_false] at h ⊢
      obtain ⟨hf, pre, rest, hdec, hpre, htr⟩ := ih h
      refine ⟨hf, o :: pre, rest, by simp [hdec], ?_, by simp [htr]⟩
      intro x hx
      rcases List.mem_cons.mp hx with hx | hx
      · simpa [hx] using (by simpa using ho)
      · exact hpre x hx

theorem stopLoop_spec (l : List LObserver) :
    stopLoop l = (l, l.filter (fun o => o.stopFails)) := by
  induction l with
  | nil => rfl
  | cons o rest ih =>
    by_cases ho : o.stopFails
    · simp [stopLoop, ih, ho, List.filter_cons]
    · simp [stopLoop, ih, ho, List.filter_cons]

/-- C4: `start()` invokes observers in ascending stage order, awaiting
each fully before the next; when no Start observer fails, every
registered observer is invoked (in the stable stage order) and no error
is produced; a failing Start observer aborts the whole startup — the
observers sorted after it are never invoked — and its failure is
propagated.  `stop()` invokes every observer in descending stage order;
a failing Stop observer does not abort teardown, and all Stop failures
are aggregated into the single reported list once teardown finishes. -/
theorem lifecycle_start_ascending_stop_descending (regs : List LObserver) :
    List.Pairwise (fun x y : LObserver => x.stage ≤ y.stage)
      (lifecycleStart regs).1 ∧
    ((∀ o ∈ regs, o.startFails = false) →
      lifecycleStart regs = (sortByStage regs, none)) ∧
    ((lifecycleStart regs).2 = none ↔ ∀ o ∈ regs, o.startFails = false) ∧
    (∀ f, (lifecycleStart regs).2 = some f →
      f.startFails = true ∧
      ∃ pre rest, sortByStage regs = pre ++ f :: rest ∧
        (∀ o ∈ pre, o.startFails = false) ∧
        (lifecycleStart regs).1 = pre ++ [f]) ∧
    (lifecycleStop regs).1 = (sortByStage regs).reverse ∧
    List.Pairwise (fun x y : LObserver => y.stage ≤ x.stage)
      (lifecycleStop regs).1 ∧
    (lifecycleStop regs).2 =
      (sortByStage regs).reverse.filter (fun o => o.stopFails) := by
  refine ⟨?_, ?_, ?_, ?_, ?_, ?_, ?_⟩
  · obtain ⟨n, hn⟩ := startLoop_trace_prefix (sortByStage regs)
    have hpair := sortByStage_pairwise regs
    unfold lifecycleStart
    rw [hn]
    exact hpair.sublist (List.take_sublist n _)
  · intro h
    unfold lifecycleStart
    exact startLoop_all_ok _ (fun o ho => h o ((mem_sortByStage o regs).mp ho))
  · unfold lifecycleStart
    rw [startLoop_err_none_iff]
    constructor
    · exact fun h o ho => h o ((mem_sortByStage o regs).mpr ho)
    · exact fun h o ho => h o ((mem_sortByStage o regs).mp ho)
  · intro f hf
    exact startLoop_failure_decomp _ f hf
  · unfold lifecycleStop
    rw [stopLoop_spec]
  · unfold lifecycleStop
    rw [stopLoop_spec]
    have hpair := sortByStage_pairwise regs
    simpa [List.pairwise_reverse] using hpair
  · unfold lifecycleStop
    rw [stopLoop_spec]

/-- Witness for C4: with the two concrete non-failing observers
(registered stage 2 first, stage 1 second), start succeeds and invokes
them in stable ascending stage order. -/
theorem lifecycle_start_ascending_stop_descending_witness :
    (∀ o ∈ sampleObservers, o.startFails = false) ∧
    lifecycleStart sampleObservers = (sortByStage sampleObservers, none) :=
  ⟨by decide,
   (lifecycle_start_ascending_stop_descending sampleObservers).2.1 (by decide)⟩

theorem takeWhile_append_all {α : Type} (p : α → Bool) (as bs : List α)
    (h : ∀ a ∈ as, p a = true) :
    (as ++ bs).takeWhile p = as ++ bs.takeWhile p := by
  induction as with
  | nil => simp
  | cons a rest ih =>
    have ha : p a = true := h a (List.mem_cons_self a rest)
    simp [List.takeWhile_cons, ha,
      ih (fun x hx => h x (List.mem_cons_of_mem a hx))]

/-- C5: `GrainWithState.participate` subscribes the `onSetupState` hook —
whose start action resolves the storage and performs `readState` — at
the SetupState lifecycle stage; consequently, in a successful activation
run the readState invocation happens strictly before any turn (message
or timer callback) executes on the activation. -/
theorem readState_subscribed_at_setupState_before_turns
    (regs : List LObserver) (className : String) (obsId : Nat)
    (turns : List Nat) (hok : ∀ o ∈ regs, o.startFails = false) :
    GrainWithState.participate regs className obsId
      = regs ++ [setupStateHook className obsId] ∧
    (setupStateHook className obsId).stage
      = GrainLifecycleStage.setupState.toNat ∧
    ActivationEvent.startObs (setupStateHook className obsId)
      ∈ (activationRun (GrainWithState.participate regs className obsId)
          turns).takeWhile (fun e => !e.isTurn) := by
  refine ⟨rfl, rfl, ?_⟩
  set regs2 := GrainWithState.participate regs className obsId with hregs2
  have hok2 : ∀ o ∈ regs2, o.startFails = false := by
    intro o ho
    rw [hregs2, GrainWithState.participate, subscribe] at ho
    rcases List.mem_append.mp ho with ho | ho
    · exact hok o ho
    · obtain rfl : o = setupStateHook className obsId := by simpa using ho
      rfl
  have hstart : lifecycleStart regs2 = (sortByStage regs2, none) :=
    startLoop_all_ok _ (fun o ho => hok2 o ((mem_sortByStage o regs2).mp ho))
  have hrun : activationRun regs2 turns =
      (sortByStage regs2).map ActivationEvent.startObs ++
        turns.map ActivationEvent.turn := by
    unfold activationRun
    rw [hstart]
  rw [hrun, takeWhile_append_all]
  · refine List.mem_append.mpr (Or.inl ?_)
    refine List.mem_map.mpr ⟨setupStateHook className obsId, ?_, rfl⟩
    refine (mem_sortByStage _ _).mpr ?_
    rw [hregs2, GrainWithState.participate, subscribe]
    simp
  · intro e he
    rcases List.mem_map.mp he with ⟨o, _, rfl⟩
    rfl

/-- Witness for C5 with no other observers and one queued turn. -/
theorem readState_subscribed_at_setupState_before_turns_witness :
    ActivationEvent.startObs (setupStateHook "QuoteGrain" 5)
      ∈ (activationRun (GrainWithState.participate [] "QuoteGrain" 5)
          [0]).takeWhile (fun e => !e.isTurn) :=
  (readState_subscribed_at_setupState_before_turns [] "QuoteGrain" 5 [0]
    (by simp)).2.2

end Faedor
